import Mathlib

/-!
Shallow embedding of the chord engine of `my-chord-app`:
`src/lib/music-theory.ts` (namespace `MusicTheory`) and the chord
detection module (namespace `ChordDetect`).  Notes, qualities, interval
labels and scale names are embedded as `String`, JS numbers used as array
indices / semitone counts as `Int`, and JS floating-point confidence
scores as exact rationals (`ℚ`), with the literals 0.3, 0.4, 0.7, 0.9,
0.95 rendered as 3/10, 2/5, 7/10, 9/10, 19/20.
-/

namespace MusicTheory

/-- `CHROMATIC_NOTES` from music-theory.ts (one array literal in the
source, split here into two halves joined by append). -/
def CHROMATIC_NOTES : List String :=
  ["C", "C#", "D", "D#", "E", "F"] ++ ["F#", "G", "G#", "A", "A#", "B"]

/-- `FLAT_NOTES` from music-theory.ts. -/
def FLAT_NOTES : List String :=
  ["C", "Db", "D", "Eb", "E", "F", "Gb", "G", "Ab", "A", "Bb", "B"]

/-- The 17 note names accepted by the `Note` union type (types/chord.ts). -/
def NOTE_NAMES : List String :=
  ["C", "C#", "Db", "D", "D#", "Eb", "E", "F",
   "F#", "Gb", "G", "G#", "Ab", "A", "A#", "Bb", "B"]

/-- `ENHARMONIC_MAP` from music-theory.ts, as an ordered association list
(JS object literal insertion order). -/
def ENHARMONIC_MAP : List (String × List String) :=
  [("C#", ["Db"]), ("Db", ["C#"]), ("D#", ["Eb"]), ("Eb", ["D#"]),
   ("F#", ["Gb"]), ("Gb", ["F#"]), ("G#", ["Ab"]), ("Ab", ["G#"]),
   ("A#", ["Bb"]), ("Bb", ["A#"])]

/-- `CHORD_INTERVALS` from music-theory.ts: quality name to interval
labels, in object insertion order. -/
def CHORD_INTERVALS : List (String × List String) :=
  [("major", ["1", "3", "5"]),
   ("minor", ["1", "♭3", "5"]),
   ("diminished", ["1", "♭3", "♭5"]),
   ("augmented", ["1", "3", "#5"]),
   ("major7", ["1", "3", "5", "7"]),
   ("minor7", ["1", "♭3", "5", "♭7"]),
   ("dominant7", ["1", "3", "5", "♭7"]),
   ("diminished7", ["1", "♭3", "♭5", "♭♭7"]),
   ("half-diminished7", ["1", "♭3", "♭5", "♭7"]),
   ("major9", ["1", "3", "5", "7", "9"]),
   ("minor9", ["1", "♭3", "5", "♭7", "9"]),
   ("dominant9", ["1", "3", "5", "♭7", "9"]),
   ("sus2", ["1", "2", "5"]),
   ("sus4", ["1", "4", "5"]),
   ("add9", ["1", "3", "5", "9"]),
   ("add11", ["1", "3", "5", "11"]),
   ("add13", ["1", "3", "5", "13"])]

/-- `ALL_QUALITIES = Object.keys(CHORD_INTERVALS)`. -/
def ALL_QUALITIES : List String := CHORD_INTERVALS.map Prod.fst

/-- `SCALE_PATTERNS` from music-theory.ts. -/
def SCALE_PATTERNS : List (String × List Int) :=
  [("major", [0, 2, 4, 5, 7, 9, 11]),
   ("natural_minor", [0, 2, 3, 5, 7, 8, 10]),
   ("harmonic_minor", [0, 2, 3, 5, 7, 8, 11]),
   ("melodic_minor", [0, 2, 3, 5, 7, 9, 11]),
   ("dorian", [0, 2, 3, 5, 7, 9, 10]),
   ("phrygian", [0, 1, 3, 5, 7, 8, 10]),
   ("lydian", [0, 2, 4, 6, 7, 9, 11]),
   ("mixolydian", [0, 2, 4, 5, 7, 9, 10]),
   ("locrian", [0, 1, 3, 5, 6, 8, 10]),
   ("pentatonic_major", [0, 2, 4, 7, 9]),
   ("pentatonic_minor", [0, 3, 5, 7, 10]),
   ("blues", [0, 3, 5, 6, 7, 10])]

/-- `MAJOR_KEY_NUMERALS`. -/
def MAJOR_KEY_NUMERALS : List String := ["I", "ii", "iii", "IV", "V", "vi", "vii°"]

/-- `MINOR_KEY_NUMERALS`. -/
def MINOR_KEY_NUMERALS : List String := ["i", "ii°", "III", "iv", "v", "VI", "VII"]

/-- `QUALITY_SUFFIX_MAP` from music-theory.ts. -/
def QUALITY_SUFFIX_MAP : List (String × String) :=
  [("major", ""), ("minor", "m"), ("diminished", "°"), ("augmented", "+"),
   ("major7", "maj7"), ("minor7", "m7"), ("dominant7", "7"),
   ("diminished7", "°7"), ("half-diminished7", "ø7"),
   ("major9", "maj9"), ("minor9", "m9"), ("dominant9", "9"),
   ("sus2", "sus2"), ("sus4", "sus4"),
   ("add9", "add9"), ("add11", "add11"), ("add13", "add13")]

/-- `SUFFIX_TO_QUALITY` from music-theory.ts. -/
def SUFFIX_TO_QUALITY : List (String × String) :=
  [("", "major"), ("m", "minor"), ("°", "diminished"), ("dim", "diminished"),
   ("+", "augmented"), ("aug", "augmented"),
   ("maj7", "major7"), ("m7", "minor7"), ("7", "dominant7"),
   ("°7", "diminished7"), ("dim7", "diminished7"), ("ø7", "half-diminished7"),
   ("maj9", "major9"), ("m9", "minor9"), ("9", "dominant9"),
   ("sus2", "sus2"), ("sus4", "sus4"),
   ("add9", "add9"), ("add11", "add11"), ("add13", "add13")]

/-- JS-object key lookup on an ordered association list. -/
def jsLookup {α : Type} (m : List (String × α)) (k : String) : Option α :=
  (m.find? (fun p => p.1 == k)).map Prod.snd

/-- `String.prototype.trim`: strip leading and trailing whitespace
(written over the character list so that it evaluates by kernel
reduction; agrees with JS trim on the ASCII inputs of this code base). -/
def jsTrim (s : String) : String :=
  String.mk (((s.data.dropWhile Char.isWhitespace).reverse.dropWhile Char.isWhitespace).reverse)

/-- `String.prototype.toLowerCase`, character-wise (the strings it is
applied to here are ASCII roman numerals plus `°`, on which JS and
`Char.toLower` agree). -/
def jsToLower (s : String) : String := String.mk (s.data.map Char.toLower)

/-- `String.prototype.toUpperCase`, character-wise. -/
def jsToUpper (s : String) : String := String.mk (s.data.map Char.toUpper)

/-- `Array.prototype.join(", ")` over strings, by structural recursion. -/
def jsJoin (sep : String) : List String → String
  | [] => ""
  | [a] => a
  | a :: rest => a ++ sep ++ jsJoin sep rest

/-- Helper for `Array.prototype.indexOf`: scan with running index. -/
def jsIndexOfAux (x : String) : List String → Int → Int
  | [], _ => -1
  | y :: ys, i => if y == x then i else jsIndexOfAux x ys (i + 1)

/-- `Array.prototype.indexOf`: index of the first occurrence, or -1. -/
def jsIndexOf (l : List String) (x : String) : Int :=
  jsIndexOfAux x l 0

/-- `getSemitoneDistance(note1, note2) = (index2 - index1 + 12) % 12`.
JS `%` on these operands agrees with truncating remainder `Int.tmod`. -/
def getSemitoneDistance (note1 note2 : String) : Int :=
  ((jsIndexOf CHROMATIC_NOTES note2) - (jsIndexOf CHROMATIC_NOTES note1) + 12).tmod 12

/-- `transposeNote(note, semitones)` from music-theory.ts.  The JS array
read `CHROMATIC_NOTES[newIndex]` is total for the indices reachable here
(`newIndex ∈ [0, 11]` whenever `semitones ≥ -120`); the `getD` default is
unreachable in every use in this development. -/
def transposeNote (note : String) (semitones : Int) : String :=
  let index := jsIndexOf CHROMATIC_NOTES note
  if index = -1 then
    let flatIndex := jsIndexOf FLAT_NOTES note
    if flatIndex = -1 then note
    else CHROMATIC_NOTES.getD ((flatIndex + semitones + 120).tmod 12).toNat ""
  else CHROMATIC_NOTES.getD ((index + semitones + 120).tmod 12).toNat ""

/-- `intervalToSemitones` from music-theory.ts (the derivation engine's
table: includes `#5` and `♭♭7`).  Unknown labels fall back to 0 — in JS
`mapping[interval] || 0`; the label `'1'` maps to the falsy 0 and so also
takes the fallback, with the same value. -/
def intervalToSemitones (interval : String) : Int :=
  let mapping : List (String × Int) :=
    [("1", 0), ("♭2", 1), ("2", 2), ("♭3", 3), ("3", 4), ("4", 5),
     ("#5", 8), ("♭5", 6), ("5", 7), ("♭6", 8), ("6", 9), ("♭7", 10), ("7", 11),
     ("♭♭7", 9),
     ("9", 14), ("♭9", 13), ("#9", 15), ("11", 17), ("#11", 18), ("13", 21), ("♭13", 20)]
  (jsLookup mapping interval).getD 0

/-- `generateChordNotes(root, quality)`. -/
def generateChordNotes (root quality : String) : List String :=
  ((jsLookup CHORD_INTERVALS quality).getD []).map
    (fun interval => transposeNote root (intervalToSemitones interval))

/-- `generateScale(key, scale)`. -/
def generateScale (key scale : String) : List String :=
  ((jsLookup SCALE_PATTERNS scale).getD []).map (fun semitones => transposeNote key semitones)

/-- `formatChordName(root, quality) = root + QUALITY_SUFFIX_MAP[quality]`. -/
def formatChordName (root quality : String) : String :=
  root ++ (jsLookup QUALITY_SUFFIX_MAP quality).getD ""

/-- The regex match `name.match(/^([A-G][#b]?)(.*)$/)`: a leading letter
`A`–`G`, a greedy optional `#`/`b`, and the rest of the line as suffix.
(The input names here never contain a newline, so `.*` takes everything.) -/
def matchRootQuality (name : String) : Option (String × String) :=
  match name.data with
  | [] => none
  | c :: rest =>
    if 'A' ≤ c ∧ c ≤ 'G' then
      match rest with
      | c2 :: rest2 =>
        if c2 = '#' ∨ c2 = 'b' then some (String.mk [c, c2], String.mk rest2)
        else some (String.mk [c], String.mk rest)
      | [] => some (String.mk [c], "")
    else none

/-- `parseChordNameToIdentity(name)` from music-theory.ts. -/
def parseChordNameToIdentity (name : String) : Option (String × String) :=
  match matchRootQuality name with
  | none => none
  | some (rootStr, suffix) =>
    let rootOpt : Option String :=
      if rootStr.data.contains 'b' ∧ rootStr.length = 2 then
        let flatNote := String.mk (rootStr.data.take 1) ++ "b"
        if CHROMATIC_NOTES.contains flatNote ∨ FLAT_NOTES.contains flatNote then
          some flatNote
        else none
      else if CHROMATIC_NOTES.contains rootStr then some rootStr
      else none
    match rootOpt with
    | none => none
    | some root =>
      match jsLookup SUFFIX_TO_QUALITY suffix with
      | some quality => some (root, quality)
      | none =>
        if suffix = "min" ∨ suffix = "minor" then some (root, "minor")
        else if suffix = "maj" ∨ suffix = "major" then some (root, "major")
        else if suffix = "" then some (root, "major")
        else none

/-- `getRomanNumeral(chordRoot, chordQuality, key, isMinorKey)`.
`scaleNotes.findIndex(note => note === chordRoot)` is `indexOf`. -/
def getRomanNumeral (chordRoot chordQuality key : String) (isMinorKey : Bool) :
    Option String :=
  let scaleNotes := generateScale key (if isMinorKey then "natural_minor" else "major")
  let rootIndex := jsIndexOf scaleNotes chordRoot
  if rootIndex = -1 then none
  else
    let numerals := if isMinorKey then MINOR_KEY_NUMERALS else MAJOR_KEY_NUMERALS
    let numeral := numerals.getD rootIndex.toNat ""
    let numeral :=
      if chordQuality = "major7" ∧ jsToLower numeral = numeral then
        jsToUpper numeral ++ "7"
      else if chordQuality = "minor7" ∧ jsToUpper numeral = numeral then
        jsToLower numeral ++ "7"
      else if chordQuality = "dominant7" then numeral ++ "7"
      else numeral
    some numeral

/-- The `ScaleCompatibility` record of types/chord.ts (compatibility is a
JS number in [0,1], embedded as `ℚ`). -/
structure ScaleCompatibility where
  scale : String
  key : String
  compatibility : ℚ
  commonTones : List String
deriving DecidableEq, Repr

/-- The common-tone fraction `commonTones.length / chordNotes.length`
computed by `findCompatibleScales` for one (key, scale) pair. -/
def commonFraction (key scaleName : String) (chordNotes : List String) : ℚ :=
  ((chordNotes.filter (fun note => (generateScale key scaleName).contains note)).length : ℚ)
    / (chordNotes.length : ℚ)

/-- `findCompatibleScales(chordNotes)`: nested `forEach` over all 12
chromatic keys and all 12 scale patterns, keeping pairs with
`compatibility >= 0.75`, then `sort((a, b) => b.compatibility - a.compatibility)`.  JS `sort` is a
stable sort; a stable sort with respect to a total preorder has a unique
result, so it is modelled by the structurally recursive stable
`List.insertionSort`. -/
def findCompatibleScales (chordNotes : List String) : List ScaleCompatibility :=
  let compatibilities :=
    CHROMATIC_NOTES.flatMap (fun key =>
      SCALE_PATTERNS.filterMap (fun p =>
        let scaleNotes := generateScale key p.1
        let commonTones := chordNotes.filter (fun note => scaleNotes.contains note)
        let compatibility : ℚ := (commonTones.length : ℚ) / (chordNotes.length : ℚ)
        if 3/4 ≤ compatibility then
          some { scale := p.1, key := key, compatibility := compatibility,
                 commonTones := commonTones }
        else none))
  compatibilities.insertionSort (fun a b => b.compatibility ≤ a.compatibility)

end MusicTheory

namespace ChordDetect

/-- The `ChordInterpretation` record of the chord-detection module.
`bassNote?` becomes an `Option`; the JS confidence number is `ℚ`. -/
structure ChordInterpretation where
  id : String
  name : String
  root : String
  quality : String
  bassNote : Option String
  inversion : Nat
  confidence : ℚ
  missingNotes : List String
  extraNotes : List String
  intervals : List String
  description : String
deriving DecidableEq, Repr

/-- The `ChordAnalysisResult` record. -/
structure ChordAnalysisResult where
  inputNotes : List String
  normalizedNotes : List String
  interpretations : List ChordInterpretation
  bestInterpretation : Option ChordInterpretation
deriving DecidableEq, Repr

/-- The result triple of `matchIntervals`. -/
structure MatchResult where
  confidence : ℚ
  missingNotes : List String
  extraNotes : List String
deriving DecidableEq, Repr

/-- `findChromaticEquivalent(note)`: direct chromatic match, then the two
`ENHARMONIC_MAP` scans of the source (the second scan can never fire after
the first: every name listed as someone's enharmonic is itself a key). -/
def findChromaticEquivalent (note : String) : Option String :=
  if MusicTheory.CHROMATIC_NOTES.contains note then some note
  else
    match MusicTheory.ENHARMONIC_MAP.find? (fun p => p.2.contains note) with
    | some p => some p.1
    | none =>
      match MusicTheory.CHROMATIC_NOTES.find?
          (fun chromatic =>
            ((MusicTheory.jsLookup MusicTheory.ENHARMONIC_MAP chromatic).getD []).contains note) with
      | some chromatic => some chromatic
      | none => none

/-- `normalizeNotes(notes)`: skip blank tokens (`!note || note.trim() === ''`
both reduce to a blank trim), resolve enharmonics, collect into a `Set`
(first-insertion order), then sort by chromatic index (JS stable sort,
modelled by the stable `List.insertionSort`). -/
def normalizeNotes (notes : List String) : List String :=
  let normalized := notes.foldl (fun acc note =>
    if MusicTheory.jsTrim note = "" then acc
    else
      match findChromaticEquivalent (MusicTheory.jsTrim note) with
      | some chromaticNote =>
        if acc.contains chromaticNote then acc else acc ++ [chromaticNote]
      | none => acc) []
  normalized.insertionSort (fun a b =>
    MusicTheory.jsIndexOf MusicTheory.CHROMATIC_NOTES a
      ≤ MusicTheory.jsIndexOf MusicTheory.CHROMATIC_NOTES b)

/-- `resolveNoteName(root, semitones)`.  Every call site passes
`semitones ≥ 0`, so JS `%` agrees with `tmod` and the array read is in
range; the `getD` default mirrors the source's `'?'`. -/
def resolveNoteName (root : String) (semitones : Int) : String :=
  let rootIndex := MusicTheory.jsIndexOf MusicTheory.CHROMATIC_NOTES root
  if rootIndex = -1 then "?"
  else MusicTheory.CHROMATIC_NOTES.getD ((rootIndex + semitones).tmod 12).toNat "?"

/-- `calculateIntervals(notes, root)`: semitone distances from the root,
sorted ascending (`sort((a, b) => a - b)`). -/
def calculateIntervals (notes : List String) (root : String) : List Int :=
  (notes.map (fun note => MusicTheory.getSemitoneDistance root note)).insertionSort
    (fun a b => a ≤ b)

/-- The chord-detection module's own `intervalToSemitones` table: unlike
the derivation engine's, it has no entry for `#5` or `♭♭7`, so both fall
back to 0. -/
def intervalToSemitones (interval : String) : Int :=
  let mapping : List (String × Int) :=
    [("1", 0), ("♭2", 1), ("2", 2), ("♭3", 3), ("3", 4), ("4", 5),
     ("♭5", 6), ("5", 7), ("♭6", 8), ("6", 9), ("♭7", 10), ("7", 11),
     ("9", 14), ("♭9", 13), ("#9", 15), ("11", 17), ("#11", 18), ("13", 21), ("♭13", 20)]
  (MusicTheory.jsLookup mapping interval).getD 0

/-- `semitonesToInterval(semitones)`, default `"+${semitones}"`. -/
def semitonesToInterval (semitones : Int) : String :=
  let mapping : List (Int × String) :=
    [(0, "1"), (1, "♭2"), (2, "2"), (3, "♭3"), (4, "3"), (5, "4"),
     (6, "♭5"), (7, "5"), (8, "♭6"), (9, "6"), (10, "♭7"), (11, "7"),
     (13, "♭9"), (14, "9"), (15, "#9"), (17, "11"), (18, "#11"), (20, "♭13"), (21, "13")]
  match (mapping.find? (fun p => p.1 == semitones)).map Prod.snd with
  | some s => s
  | none => "+" ++ toString semitones

/-- The missing-entry label built in `matchIntervals`:
`root ? `label (note)` : label`. -/
def missLabel (root : Option String) (label : String) (semitones : Int) : String :=
  match root with
  | some r => label ++ " (" ++ resolveNoteName r semitones ++ ")"
  | none => label

/-- The first loop of `matchIntervals`: walk the standard interval labels
in order, counting matches and collecting missing-entry labels. -/
def matchLoop (actualIntervals : List Int) (root : Option String) :
    List String → Nat × List String
  | [] => (0, [])
  | label :: rest =>
    let s := intervalToSemitones label
    let p := matchLoop actualIntervals root rest
    if actualIntervals.contains s then (p.1 + 1, p.2)
    else (p.1, missLabel root label s :: p.2)

/-- The third loop of `matchIntervals`: `confidence *= 0.7` for each of
the important intervals {3, 4, 7} required by the standard set but absent
from the actual intervals. -/
def importantLoop (standardSemitones actualIntervals : List Int) (c : ℚ) : ℚ :=
  ([3, 4, 7] : List Int).foldl (fun c important =>
    if standardSemitones.contains important ∧ ¬ actualIntervals.contains important
    then c * (7/10) else c) c

/-- `matchIntervals(actualIntervals, standardIntervals, root?)`. -/
def matchIntervals (actualIntervals : List Int) (standardIntervals : List String)
    (root : Option String) : MatchResult :=
  let standardSemitones := standardIntervals.map intervalToSemitones
  let p := matchLoop actualIntervals root standardIntervals
  let extra := actualIntervals.filterMap (fun interval =>
    if standardSemitones.contains interval then none
    else some (missLabel root (semitonesToInterval interval) interval))
  let confidence : ℚ :=
    if standardSemitones.length = 0 then 0
    else
      let c : ℚ := (p.1 : ℚ) / (standardSemitones.length : ℚ)
      let c := if p.1 = standardSemitones.length ∧ extra.length = 0 then 1 else c
      let c := importantLoop standardSemitones actualIntervals c
      c * (19/20) ^ extra.length
  { confidence := confidence, missingNotes := p.2, extraNotes := extra }

/-- The detection module's local `generateChordName` quality map. -/
def generateChordName (root quality : String) : String :=
  let qualityMap : List (String × String) :=
    [("major", ""), ("minor", "m"), ("diminished", "°"), ("augmented", "+"),
     ("major7", "maj7"), ("minor7", "m7"), ("dominant7", "7"),
     ("diminished7", "°7"), ("half-diminished7", "ø7"),
     ("major9", "maj9"), ("minor9", "m9"), ("dominant9", "9"),
     ("sus2", "sus2"), ("sus4", "sus4"),
     ("add9", "add9"), ("add11", "add11"), ("add13", "add13")]
  root ++ (MusicTheory.jsLookup qualityMap quality).getD ""

/-- `generateDescription(root, quality, inversion, match)`. -/
def generateDescription (root quality : String) (inversion : Nat) (m : MatchResult) :
    String :=
  let desc := generateChordName root quality
  let desc :=
    if inversion > 0 then
      let inversionNames := ["", "1st inversion", "2nd inversion", "3rd inversion"]
      desc ++ " (" ++ inversionNames.getD inversion (toString inversion ++ "th inversion") ++ ")"
    else desc
  let desc :=
    if m.missingNotes.length > 0 then
      desc ++ " [missing: " ++ MusicTheory.jsJoin ", " m.missingNotes ++ "]"
    else desc
  if m.extraNotes.length > 0 then
    desc ++ " [extra: " ++ MusicTheory.jsJoin ", " m.extraNotes ++ "]"
  else desc

/-- `analyzeWithRoot(notes, root, rootIndex)`: one hypothesis per chord
quality, kept only when `match.confidence > 0.3`. -/
def analyzeWithRoot (notes : List String) (root : String) (rootIndex : Nat) :
    List ChordInterpretation :=
  let intervals := calculateIntervals notes root
  MusicTheory.CHORD_INTERVALS.filterMap (fun q =>
    let m := matchIntervals intervals q.2 (some root)
    if m.confidence > 3/10 then
      some { id := root ++ "-" ++ q.1 ++ "-" ++ toString rootIndex,
             name := generateChordName root q.1,
             root := root, quality := q.1, bassNote := none,
             inversion := 0, confidence := m.confidence,
             missingNotes := m.missingNotes, extraNotes := m.extraNotes,
             intervals := q.2,
             description := generateDescription root q.1 0 m }
    else none)

/-- `analyzeSlashChord(notes, root, bassNote)`: the upper structure drops
the bass, the quality matching uses the stricter `> 0.4` floor, and the
kept confidence is `match.confidence * 0.9`. -/
def analyzeSlashChord (notes : List String) (root bassNote : String) :
    List ChordInterpretation :=
  let upperNotes := notes.filter (fun note => note != bassNote)
  if upperNotes.length < 2 then []
  else
    let intervals :=
      calculateIntervals (root :: upperNotes.filter (fun note => note != root)) root
    MusicTheory.CHORD_INTERVALS.filterMap (fun q =>
      let m := matchIntervals intervals q.2 (some root)
      if m.confidence > 2/5 then
        some { id := root ++ "-" ++ q.1 ++ "-slash-" ++ bassNote,
               name := generateChordName root q.1 ++ "/" ++ bassNote,
               root := root, quality := q.1, bassNote := some bassNote,
               inversion := 0, confidence := m.confidence * (9/10),
               missingNotes := m.missingNotes, extraNotes := m.extraNotes,
               intervals := q.2,
               description := generateChordName root q.1 ++ " over " ++ bassNote ++ " bass" }
      else none)

/-- `findAllInterpretations(notes)`: every note as root, then every
(bass, root) index pair with distinct indices as a slash hypothesis. -/
def findAllInterpretations (notes : List String) : List ChordInterpretation :=
  let rootInterps :=
    notes.enum.flatMap (fun p => analyzeWithRoot notes p.2 p.1)
  let slashInterps :=
    notes.enum.flatMap (fun b =>
      notes.enum.flatMap (fun r =>
        if r.1 = b.1 then [] else analyzeSlashChord notes r.2 b.2))
  rootInterps ++ slashInterps

/-- The dedup key `name + '-' + (bassNote || '')`. -/
def interpKey (i : ChordInterpretation) : String :=
  i.name ++ "-" ++ i.bassNote.getD ""

/-- `removeDuplicateInterpretations`: single pass with a seen-key set;
on a duplicate key, replace the earlier survivor only if the newcomer has
strictly higher confidence.  (The JS `findIndex` returning -1 is the
`none` branch.) -/
def removeDuplicateInterpretations (interpretations : List ChordInterpretation) :
    List ChordInterpretation :=
  (interpretations.foldl (fun st interpretation =>
    let key := interpKey interpretation
    if st.1.contains key then
      match st.2.findIdx? (fun interp => interpKey interp == key) with
      | some existingIndex =>
        if interpretation.confidence > (st.2.getD existingIndex interpretation).confidence
        then (st.1, st.2.set existingIndex interpretation)
        else st
      | none => st
    else (st.1 ++ [key], st.2 ++ [interpretation]))
    (([] : List String), ([] : List ChordInterpretation))).2

/-- `analyzeChord(inputNotes)`: normalize, generate all interpretations,
sort by descending confidence (JS stable sort, modelled by the stable
`List.insertionSort`), deduplicate, take the head as best. -/
def analyzeChord (inputNotes : List String) : ChordAnalysisResult :=
  let normalizedNotes := normalizeNotes inputNotes
  if normalizedNotes.length < 2 then
    { inputNotes := inputNotes, normalizedNotes := normalizedNotes,
      interpretations := [], bestInterpretation := none }
  else
    let interpretations := findAllInterpretations normalizedNotes
    let sorted := interpretations.insertionSort (fun a b => b.confidence ≤ a.confidence)
    let uniqueInterpretations := removeDuplicateInterpretations sorted
    { inputNotes := inputNotes, normalizedNotes := normalizedNotes,
      interpretations := uniqueInterpretations,
      bestInterpretation := uniqueInterpretations.head? }

end ChordDetect

attribute [local semireducible] Rat.mul Rat.add Rat.sub Rat.inv Rat.ofScientific

namespace MusicTheory

theorem jsIndexOfAux_eq_neg_one_iff (x : String) :
    ∀ (l : List String) (i : Int), 0 ≤ i → (jsIndexOfAux x l i = -1 ↔ x ∉ l) := by
  intro l
  induction l with
  | nil => intro i _; simp [jsIndexOfAux]
  | cons y ys ih =>
    intro i hi
    simp only [jsIndexOfAux, List.mem_cons]
    by_cases hyx : y == x
    · rw [if_pos hyx]
      constructor
      · intro h; omega
      · intro h
        exact absurd (Or.inl (eq_of_beq hyx).symm) h
    · rw [if_neg hyx]
      rw [ih (i + 1) (by omega)]
      constructor
      · intro h hmem
        rcases hmem with h1 | h2
        · exact hyx (by simp [h1])
        · exact h h2
      · intro h h2
        exact h (Or.inr h2)

theorem jsIndexOf_eq_neg_one_iff (l : List String) (x : String) :
    jsIndexOf l x = -1 ↔ x ∉ l :=
  jsIndexOfAux_eq_neg_one_iff x l 0 (by omega)

theorem jsIndexOfAux_bounds (x : String) :
    ∀ (l : List String) (i : Int),
      jsIndexOfAux x l i = -1 ∨ (i ≤ jsIndexOfAux x l i ∧ jsIndexOfAux x l i < i + l.length) := by
  intro l
  induction l with
  | nil => intro i; exact Or.inl rfl
  | cons y ys ih =>
    intro i
    simp only [jsIndexOfAux, List.length_cons]
    by_cases hyx : y == x
    · rw [if_pos hyx]; right; constructor <;> omega
    · rw [if_neg hyx]
      rcases ih (i + 1) with h | ⟨h1, h2⟩
      · exact Or.inl h
      · right; push_cast at h2 ⊢; omega

theorem jsIndexOf_lt_length (l : List String) (x : String) :
    -1 ≤ jsIndexOf l x ∧ jsIndexOf l x < l.length := by
  rcases jsIndexOfAux_bounds x l 0 with h | ⟨h1, h2⟩
  · unfold jsIndexOf; rw [h]
    constructor
    · omega
    · have : (0 : Int) ≤ l.length := by positivity
      omega
  · unfold jsIndexOf
    omega

/-- Every semitone distance lies in `[0, 12)`, for arbitrary input
strings: chromatic indices lie in `[-1, 11]`, so the dividend
`index2 - index1 + 12` is non-negative and truncating remainder agrees
with euclidean remainder. -/
theorem getSemitoneDistance_bounds (a b : String) :
    0 ≤ getSemitoneDistance a b ∧ getSemitoneDistance a b < 12 := by
  unfold getSemitoneDistance
  have ha := jsIndexOf_lt_length CHROMATIC_NOTES a
  have hb := jsIndexOf_lt_length CHROMATIC_NOTES b
  have hlen : (CHROMATIC_NOTES.length : Int) = 12 := by decide
  rw [hlen] at ha hb
  set d : Int := jsIndexOf CHROMATIC_NOTES b - jsIndexOf CHROMATIC_NOTES a + 12 with hd
  have hdpos : 0 ≤ d := by omega
  rw [Int.tmod_eq_emod hdpos (by omega)]
  exact ⟨Int.emod_nonneg d (by omega), Int.emod_lt_of_pos d (by omega)⟩

end MusicTheory

/-- Claim C4: for every root accepted by the `Note` type (all 17 sharp- or
flat-spelled names) and every one of the 17 chord qualities,
`parseChordNameToIdentity (formatChordName r q) = some (r, q)`. -/
theorem claim_C4_parse_format_round_trip :
    ∀ r ∈ MusicTheory.NOTE_NAMES, ∀ q ∈ MusicTheory.ALL_QUALITIES,
      MusicTheory.parseChordNameToIdentity (MusicTheory.formatChordName r q) = some (r, q) := by
  decide

/-- Witness for C4 at the concrete input root `Db`, quality `minor7`. -/
theorem claim_C4_parse_format_round_trip_witness :
    MusicTheory.parseChordNameToIdentity (MusicTheory.formatChordName "Db" "minor7")
      = some ("Db", "minor7") :=
  claim_C4_parse_format_round_trip "Db" (by decide) "minor7" (by decide)

/-- Claim C5: `getRomanNumeral` builds the 7-note major or natural-minor
scale of the key according to the mode flag and returns `none` whenever
the chord root is not one of those scale notes; `G major` in `C` is `V`
and `C#` in `C` major is non-diatonic. -/
theorem claim_C5_roman_numeral_diatonic_only :
    (∀ key, (MusicTheory.generateScale key "major").length = 7
      ∧ (MusicTheory.generateScale key "natural_minor").length = 7)
    ∧ (∀ chordRoot chordQuality key isMinorKey,
        chordRoot ∉ MusicTheory.generateScale key
            (if isMinorKey then "natural_minor" else "major") →
        MusicTheory.getRomanNumeral chordRoot chordQuality key isMinorKey = none)
    ∧ MusicTheory.getRomanNumeral "G" "major" "C" false = some "V"
    ∧ MusicTheory.getRomanNumeral "C#" "major" "C" false = none := by
  refine ⟨?_, ?_, by decide, by decide⟩
  · intro key
    constructor <;> (unfold MusicTheory.generateScale; rw [List.length_map]; rfl)
  · intro chordRoot chordQuality key isMinorKey h
    unfold MusicTheory.getRomanNumeral
    rw [if_pos ((MusicTheory.jsIndexOf_eq_neg_one_iff _ _).mpr h)]

/-- Witness for C5: the non-diatonic branch applied at `C#` in `C` major. -/
theorem claim_C5_roman_numeral_diatonic_only_witness :
    MusicTheory.getRomanNumeral "C#" "major" "C" false = none :=
  claim_C5_roman_numeral_diatonic_only.2.1 "C#" "major" "C" false (by decide)

/-- Claim C6: whenever normalization leaves fewer than 2 distinct pitch
classes, `analyzeChord` returns the well-formed empty result (no
interpretations, null best interpretation). -/
theorem claim_C6_few_notes_empty_result :
    ∀ inputNotes, (ChordDetect.normalizeNotes inputNotes).length < 2 →
      ChordDetect.analyzeChord inputNotes =
        { inputNotes := inputNotes,
          normalizedNotes := ChordDetect.normalizeNotes inputNotes,
          interpretations := [], bestInterpretation := none } := by
  intro inputNotes h
  unfold ChordDetect.analyzeChord
  rw [if_pos h]

/-- Witness for C6 at `["C", " ", "Dx", "C"]` (blank, invalid and
duplicate tokens collapse to the single pitch class `C`). -/
theorem claim_C6_few_notes_empty_result_witness :
    ChordDetect.analyzeChord ["C", " ", "Dx", "C"] =
      { inputNotes := ["C", " ", "Dx", "C"],
        normalizedNotes := ChordDetect.normalizeNotes ["C", " ", "Dx", "C"],
        interpretations := [], bestInterpretation := none } :=
  claim_C6_few_notes_empty_result ["C", " ", "Dx", "C"] (by decide)

/-- Counterexample to claim C7 as stated: the flat-spelled note `Db` is a
valid `Note`, but `transposeNote` returns canonical sharp spellings, so
`transposeNote "Db" 12` and `transposeNote "Db" 0` are `C#`, not `Db`. -/
theorem claim_C7_counterexample :
    "Db" ∈ MusicTheory.NOTE_NAMES
    ∧ MusicTheory.transposeNote "Db" 12 = "C#"
    ∧ MusicTheory.transposeNote "Db" 0 = "C#"
    ∧ "C#" ≠ "Db" := by
  decide

/-- Claim C7 (amended): for every valid note `n`, `transposeNote n 12`
and `transposeNote n 0` both return the canonical sharp spelling of `n`'s
pitch class — equal to `n` itself exactly when `n` is natural or
sharp-spelled; flat spellings map to their sharp enharmonic equivalent. -/
theorem claim_C7_transpose_identity_amended :
    ∀ n ∈ MusicTheory.NOTE_NAMES,
      MusicTheory.transposeNote n 12 = (ChordDetect.findChromaticEquivalent n).getD n
      ∧ MusicTheory.transposeNote n 0 = (ChordDetect.findChromaticEquivalent n).getD n
      ∧ (n ∈ MusicTheory.CHROMATIC_NOTES →
          MusicTheory.transposeNote n 12 = n ∧ MusicTheory.transposeNote n 0 = n) := by
  decide

/-- Witness for amended C7 at the concrete notes `Db` (flat-spelled) —
the result is the canonical `C#`. -/
theorem claim_C7_transpose_identity_amended_witness :
    MusicTheory.transposeNote "Db" 12 = (ChordDetect.findChromaticEquivalent "Db").getD "Db"
    ∧ MusicTheory.transposeNote "Db" 0 = (ChordDetect.findChromaticEquivalent "Db").getD "Db"
    ∧ ("Db" ∈ MusicTheory.CHROMATIC_NOTES →
        MusicTheory.transposeNote "Db" 12 = "Db" ∧ MusicTheory.transposeNote "Db" 0 = "Db") :=
  claim_C7_transpose_identity_amended "Db" (by decide)

namespace ChordDetect

theorem matchLoop_fst (actualIntervals : List Int) (root : Option String) :
    ∀ standardIntervals : List String,
      (matchLoop actualIntervals root standardIntervals).1 =
        standardIntervals.countP
          (fun lab => actualIntervals.contains (intervalToSemitones lab)) := by
  intro std
  induction std with
  | nil => rfl
  | cons lab rest ih =>
    simp only [matchLoop, List.countP_cons]
    by_cases h : actualIntervals.contains (intervalToSemitones lab)
    · rw [if_pos h]
      have hm : intervalToSemitones lab ∈ actualIntervals := by simpa using h
      simp [hm, ih]
    · rw [if_neg h]
      have hm : intervalToSemitones lab ∉ actualIntervals := by simpa using h
      simp [hm, ih]

theorem matchLoop_missing_mem (actualIntervals : List Int) (root : Option String)
    (lab : String) :
    ∀ standardIntervals : List String, lab ∈ standardIntervals →
      ¬ actualIntervals.contains (intervalToSemitones lab) →
      missLabel root lab (intervalToSemitones lab)
        ∈ (matchLoop actualIntervals root standardIntervals).2 := by
  intro std
  induction std with
  | nil => intro h; exact absurd h (List.not_mem_nil lab)
  | cons b rest ih =>
    intro hmem habs
    simp only [matchLoop]
    rcases List.mem_cons.mp hmem with rfl | hrest
    · rw [if_neg habs]
      exact List.mem_cons_self _ _
    · by_cases hb : actualIntervals.contains (intervalToSemitones b)
      · rw [if_pos hb]
        exact ih hrest habs
      · rw [if_neg hb]
        exact List.mem_cons_of_mem _ (ih hrest habs)

theorem filterMap_if_length (l : List Int) (q : Int → Bool) (g : Int → String) :
    (l.filterMap (fun i => if q i then none else some (g i))).length =
      (l.filter (fun i => !(q i))).length := by
  induction l with
  | nil => rfl
  | cons a t ih =>
    cases hq : q a <;>
      simp [List.filterMap_cons, List.filter_cons, hq, ih]

theorem importantFold_eq (standardSemitones actualIntervals : List Int) :
    ∀ (imps : List Int) (c : ℚ),
      imps.foldl (fun c important =>
        if standardSemitones.contains important ∧ ¬ actualIntervals.contains important
        then c * (7/10) else c) c =
      c * (7/10) ^ (imps.filter (fun imp => standardSemitones.contains imp
        && !(actualIntervals.contains imp))).length := by
  intro imps
  induction imps with
  | nil => intro c; simp
  | cons a t ih =>
    intro c
    simp only [List.foldl_cons, List.filter_cons]
    cases hA : standardSemitones.contains a <;> cases hB : actualIntervals.contains a
    · rw [if_neg (by decide), if_neg (by decide), ih]
    · rw [if_neg (by decide), if_neg (by decide), ih]
    · rw [if_pos (by decide), if_pos (by decide), ih, List.length_cons, pow_succ]
      ring
    · rw [if_neg (by decide), if_neg (by decide), ih]

theorem importantLoop_eq (standardSemitones actualIntervals : List Int) (c : ℚ) :
    importantLoop standardSemitones actualIntervals c =
      c * (7/10) ^ (([3, 4, 7] : List Int).filter
        (fun imp => standardSemitones.contains imp
          && !(actualIntervals.contains imp))).length :=
  importantFold_eq standardSemitones actualIntervals [3, 4, 7] c


/-- The scoring formula of `matchIntervals`, in closed form: base ratio
(boosted to exactly 1 on a perfect match with zero extras), times `0.7`
per required-but-missing important interval among {3, 4, 7}, times
`0.95` per extra interval. -/
theorem matchIntervals_confidence_eq (actualIntervals : List Int)
    (standardIntervals : List String) (root : Option String)
    (h : standardIntervals ≠ []) :
    (matchIntervals actualIntervals standardIntervals root).confidence =
      (if (∀ lab ∈ standardIntervals, actualIntervals.contains (intervalToSemitones lab))
          ∧ (∀ a ∈ actualIntervals, (standardIntervals.map intervalToSemitones).contains a)
       then (1 : ℚ)
       else (standardIntervals.countP
            (fun lab => actualIntervals.contains (intervalToSemitones lab)) : ℚ)
          / (standardIntervals.length : ℚ))
      * (7/10) ^ (([3, 4, 7] : List Int).filter
          (fun imp => (standardIntervals.map intervalToSemitones).contains imp
            && !(actualIntervals.contains imp))).length
      * (19/20) ^ ((actualIntervals.filter
          (fun a => !((standardIntervals.map intervalToSemitones).contains a))).length) := by
  have hlen0 : ¬ ((standardIntervals.map intervalToSemitones).length = 0) := by
    simpa [List.length_eq_zero] using h
  simp only [matchIntervals]
  rw [if_neg hlen0, matchLoop_fst, importantLoop_eq,
    filterMap_if_length actualIntervals
      (fun interval => (standardIntervals.map intervalToSemitones).contains interval)
      (fun interval => missLabel root (semitonesToInterval interval) interval)]
  rw [List.length_map]
  congr 2
  apply if_congr ?_ rfl rfl
  apply and_congr
  · exact List.countP_eq_length
  · rw [List.length_eq_zero, List.filter_eq_nil_iff]
    constructor
    · intro hall a ha
      simpa using hall a ha
    · intro hall a ha
      simpa using hall a ha


/-- The 17 quality names are pairwise distinct keys of `CHORD_INTERVALS`. -/
theorem chord_intervals_key_inj :
    ∀ p ∈ MusicTheory.CHORD_INTERVALS, ∀ q ∈ MusicTheory.CHORD_INTERVALS,
      p.1 = q.1 → p = q := by
  decide

theorem chord_intervals_snd_ne_nil :
    ∀ p ∈ MusicTheory.CHORD_INTERVALS, p.2 ≠ [] := by
  decide

/-- A quality appears among the root hypotheses exactly when its match
confidence clears the `> 0.3` floor. -/
theorem mem_analyzeWithRoot_iff (notes : List String) (root : String) (rootIndex : Nat)
    (quality : String) (std : List String)
    (hq : (quality, std) ∈ MusicTheory.CHORD_INTERVALS) :
    (∃ i ∈ analyzeWithRoot notes root rootIndex, i.quality = quality) ↔
      (matchIntervals (calculateIntervals notes root) std (some root)).confidence > 3/10 := by
  unfold analyzeWithRoot
  constructor
  · rintro ⟨i, hi, hqual⟩
    rw [List.mem_filterMap] at hi
    obtain ⟨p, hp, hfp⟩ := hi
    by_cases hc :
        (matchIntervals (calculateIntervals notes root) p.2 (some root)).confidence > 3/10
    · rw [if_pos hc] at hfp
      injection hfp with hrec
      subst hrec
      have hpq : p = (quality, std) :=
        chord_intervals_key_inj p hp (quality, std) hq hqual
      rw [hpq] at hc
      exact hc
    · rw [if_neg hc] at hfp
      exact absurd hfp (by simp)
  · intro hc
    exact ⟨_, List.mem_filterMap.mpr ⟨(quality, std), hq, if_pos hc⟩, rfl⟩

/-- Every retained root hypothesis of a given quality carries exactly the
match confidence of that quality. -/
theorem analyzeWithRoot_confidence_eq (notes : List String) (root : String)
    (rootIndex : Nat) (quality : String) (std : List String)
    (hq : (quality, std) ∈ MusicTheory.CHORD_INTERVALS) :
    ∀ i ∈ analyzeWithRoot notes root rootIndex, i.quality = quality →
      i.confidence =
        (matchIntervals (calculateIntervals notes root) std (some root)).confidence := by
  intro i hi hqual
  unfold analyzeWithRoot at hi
  rw [List.mem_filterMap] at hi
  obtain ⟨p, hp, hfp⟩ := hi
  by_cases hc :
      (matchIntervals (calculateIntervals notes root) p.2 (some root)).confidence > 3/10
  · rw [if_pos hc] at hfp
    injection hfp with hrec
    subst hrec
    have hpq : p = (quality, std) :=
      chord_intervals_key_inj p hp (quality, std) hq hqual
    show (matchIntervals (calculateIntervals notes root) p.2 (some root)).confidence = _
    rw [hpq]
  · rw [if_neg hc] at hfp
    exact absurd hfp (by simp)


/-- A quality appears among the slash hypotheses exactly when the upper
structure keeps at least 2 notes and the match confidence clears the
stricter `> 0.4` floor. -/
theorem mem_analyzeSlashChord_iff (notes : List String) (root bassNote : String)
    (quality : String) (std : List String)
    (hq : (quality, std) ∈ MusicTheory.CHORD_INTERVALS) :
    (∃ i ∈ analyzeSlashChord notes root bassNote, i.quality = quality) ↔
      (2 ≤ (notes.filter (fun note => note != bassNote)).length
        ∧ (matchIntervals (calculateIntervals
            (root :: (notes.filter (fun note => note != bassNote)).filter
              (fun note => note != root)) root) std (some root)).confidence > 2/5) := by
  simp only [analyzeSlashChord]
  by_cases hlen : (notes.filter (fun note => note != bassNote)).length < 2
  · rw [if_pos hlen]
    constructor
    · rintro ⟨i, hi, _⟩
      exact absurd hi (List.not_mem_nil i)
    · rintro ⟨h2, _⟩
      omega
  · rw [if_neg hlen]
    constructor
    · rintro ⟨i, hi, hqual⟩
      refine ⟨by omega, ?_⟩
      rw [List.mem_filterMap] at hi
      obtain ⟨p, hp, hfp⟩ := hi
      by_cases hc : (matchIntervals (calculateIntervals
          (root :: (notes.filter (fun note => note != bassNote)).filter
            (fun note => note != root)) root) p.2 (some root)).confidence > 2/5
      · rw [if_pos hc] at hfp
        injection hfp with hrec
        subst hrec
        have hpq : p = (quality, std) :=
          chord_intervals_key_inj p hp (quality, std) hq hqual
        rw [hpq] at hc
        exact hc
      · rw [if_neg hc] at hfp
        exact absurd hfp (by simp)
    · rintro ⟨_, hc⟩
      exact ⟨_, List.mem_filterMap.mpr ⟨(quality, std), hq, if_pos hc⟩, rfl⟩

/-- Every retained slash hypothesis of a given quality carries the match
confidence of that quality scaled by the flat `0.9` penalty. -/
theorem analyzeSlashChord_confidence_eq (notes : List String) (root bassNote : String)
    (quality : String) (std : List String)
    (hq : (quality, std) ∈ MusicTheory.CHORD_INTERVALS) :
    ∀ i ∈ analyzeSlashChord notes root bassNote, i.quality = quality →
      i.confidence = (matchIntervals (calculateIntervals
          (root :: (notes.filter (fun note => note != bassNote)).filter
            (fun note => note != root)) root) std (some root)).confidence * (9/10) := by
  intro i hi hqual
  simp only [analyzeSlashChord] at hi
  by_cases hlen : (notes.filter (fun note => note != bassNote)).length < 2
  · rw [if_pos hlen] at hi
    exact absurd hi (List.not_mem_nil i)
  · rw [if_neg hlen] at hi
    rw [List.mem_filterMap] at hi
    obtain ⟨p, hp, hfp⟩ := hi
    by_cases hc : (matchIntervals (calculateIntervals
        (root :: (notes.filter (fun note => note != bassNote)).filter
          (fun note => note != root)) root) p.2 (some root)).confidence > 2/5
    · rw [if_pos hc] at hfp
      injection hfp with hrec
      subst hrec
      have hpq : p = (quality, std) :=
        chord_intervals_key_inj p hp (quality, std) hq hqual
      show (matchIntervals (calculateIntervals
          (root :: (notes.filter (fun note => note != bassNote)).filter
            (fun note => note != root)) root) p.2 (some root)).confidence * (9/10) = _
      rw [hpq]
    · rw [if_neg hc] at hfp
      exact absurd hfp (by simp)

/-- Prepending an element of a duplicate-free list to the list with that
element filtered out is a permutation of the original list. -/
theorem perm_cons_filter_ne (a : String) :
    ∀ l : List String, a ∈ l → l.Nodup →
      (a :: l.filter (fun n => n != a)).Perm l := by
  intro l
  induction l with
  | nil => intro h _; exact absurd h (List.not_mem_nil a)
  | cons b t ih =>
    intro hmem hnd
    rcases List.mem_cons.mp hmem with rfl | hat
    · have hnotmem : a ∉ t := (List.nodup_cons.mp hnd).1
      have hfilter : t.filter (fun n => n != a) = t := by
        apply List.filter_eq_self.mpr
        intro x hx
        simpa using ne_of_mem_of_not_mem hx hnotmem
      rw [List.filter_cons_of_neg (by simp), hfilter]
    · have hba : (b != a) = true := by
        have : b ≠ a := fun h => (List.nodup_cons.mp hnd).1 (h ▸ hat)
        simpa using this
      have hstep : (b :: t).filter (fun n => n != a) =
          b :: t.filter (fun n => n != a) := by
        simp [List.filter_cons, hba]
      rw [hstep]
      exact (List.Perm.swap b a _).trans
        ((ih hat (List.nodup_cons.mp hnd).2).cons b)

/-- `calculateIntervals` sorts the distances, so it only depends on the
input notes up to permutation. -/
theorem calculateIntervals_perm {l1 l2 : List String} (root : String)
    (h : l1.Perm l2) :
    calculateIntervals l1 root = calculateIntervals l2 root := by
  unfold calculateIntervals
  have hperm := (List.perm_insertionSort (fun a b : Int => a ≤ b)
      (l1.map (fun note => MusicTheory.getSemitoneDistance root note))).trans
    ((h.map (fun note => MusicTheory.getSemitoneDistance root note)).trans
      (List.perm_insertionSort (fun a b : Int => a ≤ b)
        (l2.map (fun note => MusicTheory.getSemitoneDistance root note))).symm)
  exact List.eq_of_perm_of_sorted hperm
    (List.sorted_insertionSort _ _) (List.sorted_insertionSort _ _)

end ChordDetect

/-- Claim C1: for every input note set and candidate (root, quality), the
match confidence equals the match ratio — boosted to exactly 1 when every
standard interval is matched and there are zero extras — times `0.7` for
each of the semitone intervals {3, 4, 7} required by the quality but
absent from the actual intervals, times `0.95` to the number of extra
intervals; and a hypothesis of that quality is kept by `analyzeWithRoot`
exactly when this confidence exceeds `0.3`, carrying it unchanged. -/
theorem claim_C1_confidence_scoring :
    ∀ (notes : List String) (root : String) (rootIndex : Nat) (quality : String)
      (std : List String), (quality, std) ∈ MusicTheory.CHORD_INTERVALS →
      ((ChordDetect.matchIntervals (ChordDetect.calculateIntervals notes root) std
          (some root)).confidence =
        (if (∀ lab ∈ std, (ChordDetect.calculateIntervals notes root).contains
              (ChordDetect.intervalToSemitones lab))
            ∧ (∀ a ∈ ChordDetect.calculateIntervals notes root,
                (std.map ChordDetect.intervalToSemitones).contains a)
         then (1 : ℚ)
         else (std.countP (fun lab => (ChordDetect.calculateIntervals notes root).contains
              (ChordDetect.intervalToSemitones lab)) : ℚ) / (std.length : ℚ))
        * (7/10) ^ (([3, 4, 7] : List Int).filter
            (fun imp => (std.map ChordDetect.intervalToSemitones).contains imp
              && !((ChordDetect.calculateIntervals notes root).contains imp))).length
        * (19/20) ^ (((ChordDetect.calculateIntervals notes root).filter
            (fun a => !((std.map ChordDetect.intervalToSemitones).contains a))).length))
      ∧ ((∃ i ∈ ChordDetect.analyzeWithRoot notes root rootIndex, i.quality = quality) ↔
          (ChordDetect.matchIntervals (ChordDetect.calculateIntervals notes root) std
            (some root)).confidence > 3/10)
      ∧ (∀ i ∈ ChordDetect.analyzeWithRoot notes root rootIndex, i.quality = quality →
          i.confidence = (ChordDetect.matchIntervals
            (ChordDetect.calculateIntervals notes root) std (some root)).confidence) := by
  intro notes root rootIndex quality std hq
  exact ⟨ChordDetect.matchIntervals_confidence_eq _ _ _
      (ChordDetect.chord_intervals_snd_ne_nil (quality, std) hq),
    ChordDetect.mem_analyzeWithRoot_iff notes root rootIndex quality std hq,
    ChordDetect.analyzeWithRoot_confidence_eq notes root rootIndex quality std hq⟩

/-- Witness for C1 at notes `[C, E, G]`, root `C`, quality `major`. -/
theorem claim_C1_confidence_scoring_witness :
    (∃ i ∈ ChordDetect.analyzeWithRoot ["C", "E", "G"] "C" 0, i.quality = "major") ↔
      (ChordDetect.matchIntervals (ChordDetect.calculateIntervals ["C", "E", "G"] "C")
        ["1", "3", "5"] (some "C")).confidence > 3/10 :=
  (claim_C1_confidence_scoring ["C", "E", "G"] "C" 0 "major" ["1", "3", "5"] (by decide)).2.1

set_option maxRecDepth 4000 in
/-- Claim C2: every permutation of `["C","E","G"]` yields the same ranked
interpretation list as `analyzeChord ["C","E","G"]`, whose best
interpretation is C major with confidence exactly 1 and no missing or
extra notes. -/
theorem claim_C2_c_major_order_independence :
    ∀ p ∈ [["C", "E", "G"], ["C", "G", "E"], ["E", "C", "G"],
           ["E", "G", "C"], ["G", "C", "E"], ["G", "E", "C"]],
      (ChordDetect.analyzeChord p).interpretations
          = (ChordDetect.analyzeChord ["C", "E", "G"]).interpretations
      ∧ ((ChordDetect.analyzeChord p).bestInterpretation.map
          ChordDetect.ChordInterpretation.root) = some "C"
      ∧ ((ChordDetect.analyzeChord p).bestInterpretation.map
          ChordDetect.ChordInterpretation.quality) = some "major"
      ∧ ((ChordDetect.analyzeChord p).bestInterpretation.map
          ChordDetect.ChordInterpretation.confidence) = some 1
      ∧ ((ChordDetect.analyzeChord p).bestInterpretation.map
          ChordDetect.ChordInterpretation.missingNotes) = some []
      ∧ ((ChordDetect.analyzeChord p).bestInterpretation.map
          ChordDetect.ChordInterpretation.extraNotes) = some [] := by
  decide

/-- Witness for C2 at the reordered input `["E","G","C"]`. -/
theorem claim_C2_c_major_order_independence_witness :
    (ChordDetect.analyzeChord ["E", "G", "C"]).interpretations
        = (ChordDetect.analyzeChord ["C", "E", "G"]).interpretations
    ∧ ((ChordDetect.analyzeChord ["E", "G", "C"]).bestInterpretation.map
        ChordDetect.ChordInterpretation.root) = some "C"
    ∧ ((ChordDetect.analyzeChord ["E", "G", "C"]).bestInterpretation.map
        ChordDetect.ChordInterpretation.quality) = some "major"
    ∧ ((ChordDetect.analyzeChord ["E", "G", "C"]).bestInterpretation.map
        ChordDetect.ChordInterpretation.confidence) = some 1
    ∧ ((ChordDetect.analyzeChord ["E", "G", "C"]).bestInterpretation.map
        ChordDetect.ChordInterpretation.missingNotes) = some []
    ∧ ((ChordDetect.analyzeChord ["E", "G", "C"]).bestInterpretation.map
        ChordDetect.ChordInterpretation.extraNotes) = some [] :=
  claim_C2_c_major_order_independence ["E", "G", "C"] (by decide)

set_option maxRecDepth 4000 in
/-- Claim C3: for every normalized note set and pair (bass, root) with
bass distinct from root, the slash analysis drops the bass, matches the
remaining upper structure against each quality, retains a hypothesis only
above the stricter `0.4` floor, and scales the retained confidence by
`0.9`; for `["C","E","G","A"]` a `C/E` interpretation is present with
confidence at most the plain C-major confidence on the same upper
structure. -/
theorem claim_C3_slash_chord_analysis :
    (∀ (notes : List String) (root bassNote quality : String) (std : List String),
      (quality, std) ∈ MusicTheory.CHORD_INTERVALS →
      root ∈ notes → root ≠ bassNote → notes.Nodup →
      (((∃ i ∈ ChordDetect.analyzeSlashChord notes root bassNote, i.quality = quality) ↔
          (2 ≤ (notes.filter (fun note => note != bassNote)).length
            ∧ (ChordDetect.matchIntervals (ChordDetect.calculateIntervals
                (notes.filter (fun note => note != bassNote)) root) std
                (some root)).confidence > 2/5))
        ∧ (∀ i ∈ ChordDetect.analyzeSlashChord notes root bassNote, i.quality = quality →
            i.confidence = (ChordDetect.matchIntervals (ChordDetect.calculateIntervals
                (notes.filter (fun note => note != bassNote)) root) std
                (some root)).confidence * (9/10))))
    ∧ (∃ i ∈ (ChordDetect.analyzeChord ["C", "E", "G", "A"]).interpretations,
        i.name = "C/E" ∧ i.confidence ≤ (ChordDetect.matchIntervals
          (ChordDetect.calculateIntervals
            (["C", "E", "G", "A"].filter (fun n => n != "E")) "C")
          ["1", "3", "5"] (some "C")).confidence) := by
  constructor
  · intro notes root bassNote quality std hq hroot hne hnd
    have hmem : root ∈ notes.filter (fun note => note != bassNote) :=
      List.mem_filter.mpr ⟨hroot, by simpa using hne⟩
    have hnd2 : (notes.filter (fun note => note != bassNote)).Nodup := hnd.filter _
    have hint : ChordDetect.calculateIntervals
        (root :: (notes.filter (fun note => note != bassNote)).filter
          (fun note => note != root)) root
        = ChordDetect.calculateIntervals (notes.filter (fun note => note != bassNote)) root :=
      ChordDetect.calculateIntervals_perm root
        (ChordDetect.perm_cons_filter_ne root _ hmem hnd2)
    constructor
    · rw [← hint]
      exact ChordDetect.mem_analyzeSlashChord_iff notes root bassNote quality std hq
    · rw [← hint]
      exact ChordDetect.analyzeSlashChord_confidence_eq notes root bassNote quality std hq
  · decide

/-- Witness for C3 at notes `["C","E","G","A"]`, root `C`, bass `E`,
quality `major`. -/
theorem claim_C3_slash_chord_analysis_witness :
    (∃ i ∈ ChordDetect.analyzeSlashChord ["C", "E", "G", "A"] "C" "E",
        i.quality = "major") ↔
      (2 ≤ ((["C", "E", "G", "A"] : List String).filter (fun note => note != "E")).length
        ∧ (ChordDetect.matchIntervals (ChordDetect.calculateIntervals
            ((["C", "E", "G", "A"] : List String).filter (fun note => note != "E")) "C")
            ["1", "3", "5"] (some "C")).confidence > 2/5) :=
  (claim_C3_slash_chord_analysis.1 ["C", "E", "G", "A"] "C" "E" "major" ["1", "3", "5"]
    (by decide) (by decide) (by decide) (by decide)).1

namespace MusicTheory

/-- The result of `findCompatibleScales` is sorted by descending
compatibility. -/
theorem findCompatibleScales_pairwise (chordNotes : List String) :
    (findCompatibleScales chordNotes).Pairwise
      (fun a b => b.compatibility ≤ a.compatibility) := by
  unfold findCompatibleScales
  haveI ht : IsTotal ScaleCompatibility (fun a b => b.compatibility ≤ a.compatibility) :=
    ⟨fun a b => le_total b.compatibility a.compatibility⟩
  haveI htr : IsTrans ScaleCompatibility (fun a b => b.compatibility ≤ a.compatibility) :=
    ⟨fun _ _ _ h1 h2 => le_trans h2 h1⟩
  exact List.sorted_insertionSort _ _

/-- Membership characterization of `findCompatibleScales`: exactly the
(key, scale) pairs over all 12 chromatic keys and 12 scale patterns whose
common-tone fraction reaches 0.75, carrying that fraction. -/
theorem mem_findCompatibleScales_iff (chordNotes : List String)
    (c : ScaleCompatibility) :
    c ∈ findCompatibleScales chordNotes ↔
      ∃ key ∈ CHROMATIC_NOTES, ∃ p ∈ SCALE_PATTERNS,
        3/4 ≤ commonFraction key p.1 chordNotes
        ∧ c = { scale := p.1, key := key,
                compatibility := commonFraction key p.1 chordNotes,
                commonTones := chordNotes.filter
                  (fun note => (generateScale key p.1).contains note) } := by
  unfold findCompatibleScales
  rw [List.mem_insertionSort, List.mem_flatMap]
  constructor
  · rintro ⟨key, hkey, hmem⟩
    rw [List.mem_filterMap] at hmem
    obtain ⟨p, hp, hfp⟩ := hmem
    dsimp only [] at hfp
    by_cases hg : 3/4 ≤ ((chordNotes.filter
        (fun note => (generateScale key p.1).contains note)).length : ℚ)
        / (chordNotes.length : ℚ)
    · rw [if_pos hg] at hfp
      injection hfp with hrec
      exact ⟨key, hkey, p, hp, hg, hrec.symm⟩
    · rw [if_neg hg] at hfp
      exact absurd hfp (by simp)
  · rintro ⟨key, hkey, p, hp, hg, rfl⟩
    exact ⟨key, hkey, List.mem_filterMap.mpr ⟨p, hp, if_pos hg⟩⟩

end MusicTheory

set_option maxRecDepth 4000 in
/-- Claim C8: `findCompatibleScales` ranges over all 12 chromatic keys
crossed with all 12 scale patterns, keeps exactly the pairs whose
common-tone fraction is at least 0.75, reports that fraction, and returns
the list sorted by descending fraction; for `["C","E","G"]` it includes
(C, major) with compatibility 1. -/
theorem claim_C8_compatible_scales :
    (∀ chordNotes : List String,
      ((MusicTheory.findCompatibleScales chordNotes).Pairwise
        (fun a b => b.compatibility ≤ a.compatibility))
      ∧ (∀ c ∈ MusicTheory.findCompatibleScales chordNotes,
          c.compatibility = MusicTheory.commonFraction c.key c.scale chordNotes
          ∧ 3/4 ≤ c.compatibility)
      ∧ (∀ key ∈ MusicTheory.CHROMATIC_NOTES, ∀ p ∈ MusicTheory.SCALE_PATTERNS,
          3/4 ≤ MusicTheory.commonFraction key p.1 chordNotes →
          ∃ c ∈ MusicTheory.findCompatibleScales chordNotes,
            c.key = key ∧ c.scale = p.1
            ∧ c.compatibility = MusicTheory.commonFraction key p.1 chordNotes))
    ∧ ({ scale := "major", key := "C", compatibility := 1,
         commonTones := ["C", "E", "G"] } : MusicTheory.ScaleCompatibility)
        ∈ MusicTheory.findCompatibleScales ["C", "E", "G"] := by
  constructor
  · intro chordNotes
    refine ⟨MusicTheory.findCompatibleScales_pairwise chordNotes, ?_, ?_⟩
    · intro c hc
      obtain ⟨key, hkey, p, hp, hg, rfl⟩ :=
        (MusicTheory.mem_findCompatibleScales_iff chordNotes c).mp hc
      exact ⟨rfl, hg⟩
    · intro key hkey p hp hg
      exact ⟨_, (MusicTheory.mem_findCompatibleScales_iff chordNotes _).mpr
        ⟨key, hkey, p, hp, hg, rfl⟩, rfl, rfl, rfl⟩
  · decide

/-- Witness for C8: the completeness direction applied at key `C`, scale
`major`, chord notes `["C","E","G"]`. -/
theorem claim_C8_compatible_scales_witness :
    ∃ c ∈ MusicTheory.findCompatibleScales ["C", "E", "G"],
      c.key = "C" ∧ c.scale = "major"
      ∧ c.compatibility = MusicTheory.commonFraction "C" "major" ["C", "E", "G"] :=
  (claim_C8_compatible_scales.1 ["C", "E", "G"]).2.2 "C" (by decide)
    ("major", [0, 2, 4, 5, 7, 9, 11]) (by decide) (by decide)

set_option maxRecDepth 4000 in
/-- Claim C9: the detection module's interval table lacks `#5` and `♭♭7`
(both fall back to 0, unlike the derivation engine's table with 8 and 9),
so the augmented quality's standard intervals come out as `[0, 4, 0]`;
for the exact augmented triad `["C","E","G#"]` the augmented hypothesis
from root `C` reports `G#` as an extra note and scores `0.95`, not the
perfect-match 1. -/
theorem claim_C9_missing_sharp5_entry :
    ChordDetect.intervalToSemitones "#5" = 0
    ∧ ChordDetect.intervalToSemitones "♭♭7" = 0
    ∧ MusicTheory.intervalToSemitones "#5" = 8
    ∧ MusicTheory.intervalToSemitones "♭♭7" = 9
    ∧ (["1", "3", "#5"].map ChordDetect.intervalToSemitones) = [0, 4, 0]
    ∧ (ChordDetect.matchIntervals (ChordDetect.calculateIntervals ["C", "E", "G#"] "C")
        ["1", "3", "#5"] (some "C")) =
      { confidence := 19/20, missingNotes := [], extraNotes := ["♭6 (G#)"] }
    ∧ (∃ i ∈ (ChordDetect.analyzeChord ["C", "E", "G#"]).interpretations,
        i.root = "C" ∧ i.quality = "augmented" ∧ i.confidence = 19/20
        ∧ i.extraNotes = ["♭6 (G#)"]) := by
  decide

namespace ChordDetect

/-- All actual intervals computed by `calculateIntervals` lie in `[0, 12)`. -/
theorem calculateIntervals_bounds (notes : List String) (root : String) :
    ∀ a ∈ calculateIntervals notes root, 0 ≤ a ∧ a < 12 := by
  intro a ha
  unfold calculateIntervals at ha
  rw [List.mem_insertionSort] at ha
  obtain ⟨n, _, rfl⟩ := List.mem_map.mp ha
  exact MusicTheory.getSemitoneDistance_bounds root n

end ChordDetect

/-- Claim C10: whenever a quality's interval list contains a compound
label converting to 13 or more semitones, that label is reported in
`missingNotes` (as `label (note)`) and the match confidence is strictly
below 1 for every input — actual intervals are computed modulo 12 and can
never reach 13 — so every hypothesis of such a quality scores below 1;
and each of the six extended/add qualities has such a label. -/
theorem claim_C10_compound_intervals_never_match :
    (∀ (notes : List String) (root : String) (rootIndex : Nat) (quality : String)
      (std : List String) (lab : String),
      (quality, std) ∈ MusicTheory.CHORD_INTERVALS → lab ∈ std →
      13 ≤ ChordDetect.intervalToSemitones lab →
      ((∃ entry ∈ (ChordDetect.matchIntervals (ChordDetect.calculateIntervals notes root)
          std (some root)).missingNotes, ∃ rest, entry = lab ++ rest)
        ∧ (ChordDetect.matchIntervals (ChordDetect.calculateIntervals notes root) std
            (some root)).confidence < 1
        ∧ (∀ i ∈ ChordDetect.analyzeWithRoot notes root rootIndex, i.quality = quality →
            i.confidence < 1)))
    ∧ (∀ q ∈ (["major9", "minor9", "dominant9", "add9", "add11", "add13"] : List String),
        ∃ p ∈ MusicTheory.CHORD_INTERVALS, p.1 = q
          ∧ ∃ lab ∈ p.2, 13 ≤ ChordDetect.intervalToSemitones lab) := by
  constructor
  · intro notes root rootIndex quality std lab hq hlab hge
    have hbound := ChordDetect.calculateIntervals_bounds notes root
    have hnotin : ¬ (ChordDetect.calculateIntervals notes root).contains
        (ChordDetect.intervalToSemitones lab) := by
      intro hcon
      have hmem : ChordDetect.intervalToSemitones lab
          ∈ ChordDetect.calculateIntervals notes root := by simpa using hcon
      have := (hbound _ hmem).2
      omega
    have hne : std ≠ [] := ChordDetect.chord_intervals_snd_ne_nil (quality, std) hq
    have hmiss : ChordDetect.missLabel (some root) lab (ChordDetect.intervalToSemitones lab)
        ∈ (ChordDetect.matchIntervals (ChordDetect.calculateIntervals notes root) std
          (some root)).missingNotes := by
      simp only [ChordDetect.matchIntervals]
      exact ChordDetect.matchLoop_missing_mem _ _ lab std hlab hnotin
    have hlen : 0 < std.length := List.length_pos.mpr hne
    have hcountlt : std.countP (fun l =>
        (ChordDetect.calculateIntervals notes root).contains
          (ChordDetect.intervalToSemitones l)) < std.length := by
      rcases Nat.lt_or_ge (std.countP _) std.length with h | h
      · exact h
      · have heq : std.countP (fun l =>
            (ChordDetect.calculateIntervals notes root).contains
              (ChordDetect.intervalToSemitones l)) = std.length :=
          le_antisymm (List.countP_le_length _) h
        have := (List.countP_eq_length).mp heq lab hlab
        exact absurd this hnotin
    have hconflt : (ChordDetect.matchIntervals (ChordDetect.calculateIntervals notes root)
        std (some root)).confidence < 1 := by
      rw [ChordDetect.matchIntervals_confidence_eq _ _ _ hne]
      have hcondfalse : ¬ ((∀ l ∈ std, (ChordDetect.calculateIntervals notes root).contains
            (ChordDetect.intervalToSemitones l))
          ∧ (∀ a ∈ ChordDetect.calculateIntervals notes root,
              (std.map ChordDetect.intervalToSemitones).contains a)) := by
        rintro ⟨hall, _⟩
        exact hnotin (hall lab hlab)
      rw [if_neg hcondfalse]
      have hbase0 : (0 : ℚ) ≤ (std.countP (fun l =>
          (ChordDetect.calculateIntervals notes root).contains
            (ChordDetect.intervalToSemitones l)) : ℚ) / (std.length : ℚ) := by
        positivity
      have hbase1 : (std.countP (fun l =>
          (ChordDetect.calculateIntervals notes root).contains
            (ChordDetect.intervalToSemitones l)) : ℚ) / (std.length : ℚ) < 1 := by
        rw [div_lt_one (by exact_mod_cast hlen)]
        exact_mod_cast hcountlt
      have hx1 : ((7:ℚ)/10) ^ (([3, 4, 7] : List Int).filter
          (fun imp => (std.map ChordDetect.intervalToSemitones).contains imp
            && !((ChordDetect.calculateIntervals notes root).contains imp))).length ≤ 1 :=
        pow_le_one₀ (by norm_num) (by norm_num)
      have hx0 : (0:ℚ) ≤ ((7:ℚ)/10) ^ (([3, 4, 7] : List Int).filter
          (fun imp => (std.map ChordDetect.intervalToSemitones).contains imp
            && !((ChordDetect.calculateIntervals notes root).contains imp))).length :=
        pow_nonneg (by norm_num) _
      have hy1 : ((19:ℚ)/20) ^ (((ChordDetect.calculateIntervals notes root).filter
          (fun a => !((std.map ChordDetect.intervalToSemitones).contains a))).length) ≤ 1 :=
        pow_le_one₀ (by norm_num) (by norm_num)
      calc _ ≤ (std.countP (fun l =>
              (ChordDetect.calculateIntervals notes root).contains
                (ChordDetect.intervalToSemitones l)) : ℚ) / (std.length : ℚ)
            * ((7:ℚ)/10) ^ (([3, 4, 7] : List Int).filter
              (fun imp => (std.map ChordDetect.intervalToSemitones).contains imp
                && !((ChordDetect.calculateIntervals notes root).contains imp))).length :=
            mul_le_of_le_one_right (by positivity) hy1
        _ ≤ (std.countP (fun l =>
              (ChordDetect.calculateIntervals notes root).contains
                (ChordDetect.intervalToSemitones l)) : ℚ) / (std.length : ℚ) :=
            mul_le_of_le_one_right hbase0 hx1
        _ < 1 := hbase1
    refine ⟨⟨ChordDetect.missLabel (some root) lab (ChordDetect.intervalToSemitones lab),
        hmiss, " (" ++ ChordDetect.resolveNoteName root (ChordDetect.intervalToSemitones lab)
          ++ ")", ?_⟩, hconflt, ?_⟩
    · simp [ChordDetect.missLabel, String.append_assoc]
    · intro i hi hqual
      rw [ChordDetect.analyzeWithRoot_confidence_eq notes root rootIndex quality std hq
        i hi hqual]
      exact hconflt
  · decide

/-- Witness for C10 at notes `[C, E, G]`, root `C`, quality `major9`,
compound label `9`. -/
theorem claim_C10_compound_intervals_never_match_witness :
    (ChordDetect.matchIntervals (ChordDetect.calculateIntervals ["C", "E", "G"] "C")
      ["1", "3", "5", "7", "9"] (some "C")).confidence < 1 :=
  (claim_C10_compound_intervals_never_match.1 ["C", "E", "G"] "C" 0 "major9"
    ["1", "3", "5", "7", "9"] "9" (by decide) (by decide) (by decide)).2.1
